import Mathlib

/-!
Shallow embedding of the "This or that" pairwise image-preference game
(`app.py` and the `sources/` package): session state, round sampling with
repeat-avoidance, score tracking, results computation, channel builders,
and the session lifecycle, together with theorems about them.
-/

namespace ThisOrThat

/-! ### Python dict model

A Python `dict` is modelled as an association list with unique keys kept in
insertion order: assigning to an existing key updates it in place, assigning
to a fresh key appends it. -/

abbrev Dict (β : Type) := List (String × β)

namespace Dict

def get? {β : Type} : Dict β → String → Option β
  | [], _ => none
  | (k', v) :: rest, k => if k' = k then some v else get? rest k

/-- `d.get(k, dflt)` -/
def get {β : Type} (d : Dict β) (k : String) (dflt : β) : β :=
  (d.get? k).getD dflt

/-- `d[k] = v` -/
def set {β : Type} : Dict β → String → β → Dict β
  | [], k, v => [(k, v)]
  | (k', v') :: rest, k, v => if k' = k then (k, v) :: rest else (k', v') :: set rest k v

/-- `d.setdefault(k, v)` (ignoring the returned value) -/
def setdefault {β : Type} (d : Dict β) (k : String) (v : β) : Dict β :=
  if (d.get? k).isSome then d else d ++ [(k, v)]

def keys {β : Type} (d : Dict β) : List String := d.map Prod.fst

def values {β : Type} (d : Dict β) : List β := d.map Prod.snd

end Dict

/-! ### Data model -/

/-- One contestant: a named pool of image identifiers
(`{"name": ..., "images": [...]}`; the `dir` field carries no game logic). -/
structure Channel where
  name : String
  images : List String
deriving DecidableEq

/-- One game session, as stored in `GAMES[gid]`. -/
structure Game where
  channels : List Channel
  wins : Dict Nat
  served : Dict (Finset String)
  rounds_total : Nat
  round_index : Nat
  current_round : Option ((String × String) × (String × String))
deriving DecidableEq

/-- The fresh game record created by `ensure_game`. -/
def ensure_game_init : Game :=
  { channels := []
    wins := []
    served := []
    rounds_total := 15
    round_index := 0
    current_round := none }

/-- `reset_game_state(gid, preserve_cache)` -/
def reset_game_state (g : Game) (preserve_cache : Bool) : Game :=
  let wins := g.channels.foldl (fun d c => Dict.set d c.name 0) ([] : Dict Nat)
  let served :=
    if preserve_cache then
      g.channels.foldl (fun d c => Dict.setdefault d c.name ∅) g.served
    else
      g.channels.foldl (fun d c => Dict.set d c.name ∅) ([] : Dict (Finset String))
  { g with wins := wins, served := served, round_index := 0, current_round := none }

/-- The `/replay` route: reset but preserve the served cache. -/
def replay (g : Game) : Game := reset_game_state g true

/-- The `/startover` route reinitializes the whole game record. -/
def startover (_g : Game) : Game :=
  { channels := []
    wins := []
    served := []
    rounds_total := 15
    round_index := 0
    current_round := none }

/-- The `/choose` route.  `choice` is `request.form.get("choice")`. -/
def choose (g : Game) (choice : Option String) : Game :=
  match g.current_round with
  | none => g
  | some ((chanA_name, _imgA), (chanB_name, _imgB)) =>
    let picked? : Option String :=
      if choice = some "left" then some chanA_name
      else if choice = some "right" then some chanB_name
      else none
    match picked? with
    | none => g
    | some picked =>
      { g with
        wins := Dict.set g.wins picked (Dict.get g.wins picked 0 + 1)
        round_index := g.round_index + 1
        current_round := none }

/-- Sum of the values of the `wins` dict. -/
def sum_wins (g : Game) : Nat := (Dict.values g.wins).sum

/-! ### String helpers

Python string primitives, modelled over `List Char` so that everything
reduces by kernel computation. -/

/-- Python `str.strip()`. -/
def pyStrip (s : String) : String :=
  String.mk (((s.toList.dropWhile Char.isWhitespace).reverse.dropWhile Char.isWhitespace).reverse)

/-- Python `str.lower()` (ASCII case folding). -/
def pyLower (s : String) : String := String.mk (s.toList.map Char.toLower)

/-- Python `str.split(sep)` for a one-character separator. -/
def splitOnChar (sep : Char) (s : String) : List String :=
  (s.toList.foldr
    (fun c acc =>
      if c = sep then [] :: acc
      else match acc with
        | h :: t => (c :: h) :: t
        | [] => [[c]])
    [[]]).map String.mk

/-- Python string comparison (lexicographic by code point), on char lists. -/
def charsLE : List Char → List Char → Bool
  | [], _ => true
  | _ :: _, [] => false
  | a :: as, b :: bs => if a < b then true else if b < a then false else charsLE as bs

/-- Python `a <= b` on strings. -/
def strLE (a b : String) : Bool := charsLE a.toList b.toList

/-- `"/".join`-style join of path components. -/
def joinPath : List String → String
  | [] => ""
  | [p] => p
  | p :: rest => p ++ "/" ++ joinPath rest

/-! ### Path helpers (`pathlib` fragment) -/

/-- The final `/`-separated component of a path (`Path(s).name` for paths
without a trailing slash). -/
def path_name (s : String) : String := (splitOnChar '/' s).getLastD ""

/-- `Path(s).suffix`: the final dot-extension of the last component
(empty if the last component has no interior dot). -/
def path_suffix (s : String) : String :=
  let rev := (path_name s).toList.reverse
  let after := rev.takeWhile (fun c => c ≠ '.')
  match rev.drop after.length with
  | '.' :: before => if before ≠ [] ∧ after ≠ [] then String.mk ('.' :: after.reverse) else ""
  | _ => ""

/-- `Path(s).stem`: the last component without its suffix. -/
def path_stem (s : String) : String :=
  let name := path_name s
  let rev := name.toList.reverse
  let after := rev.takeWhile (fun c => c ≠ '.')
  match rev.drop after.length with
  | '.' :: before =>
    if before ≠ [] ∧ after ≠ [] then String.mk before.reverse else name
  | _ => name

/-- `ALLOWED_EXTENSIONS` -/
def ALLOWED_EXTENSIONS : List String := [".png", ".jpg", ".jpeg", ".gif", ".webp", ".bmp"]

/-- `allowed_file(filename)` -/
def allowed_file (filename : String) : Bool :=
  ALLOWED_EXTENSIONS.contains (pyLower (path_suffix filename))

/-- `safe_channel_name`'s character filter, also used by the `sources`
builders: keep alphanumerics, space, `_`, `-`, `.`, then strip. -/
def sanitize (s : String) : String :=
  pyStrip (String.mk (s.toList.filter
    (fun ch => ch.isAlphanum || ch == ' ' || ch == '_' || ch == '-' || ch == '.')))

/-- `safe_channel_name(name)` -/
def safe_channel_name (name : String) : String :=
  let clean := sanitize name
  if clean = "" then "Channel" else clean

/-! ### Round sampling -/

/-- One call of `pick_unserved_image` for a channel with image list `images`,
seen through its effect on that channel's served set: `choice` is a possible
return value and `served'` the updated served set.  The random choice is
nondeterminism. -/
def pickStep (images : List String) (served : Finset String) (choice : String)
    (served' : Finset String) : Prop :=
  let available := images.toFinset
  let served1 := if available \ served = ∅ then (∅ : Finset String) else served
  let unseen := available \ served1
  (if unseen = ∅ then choice ∈ images else choice ∈ unseen) ∧ served' = insert choice served1

instance (images : List String) (served : Finset String) (choice : String)
    (served' : Finset String) : Decidable (pickStep images served choice served') := by
  unfold pickStep; infer_instance

/-- A run of consecutive `pick_unserved_image` calls on one channel:
`PickSeq images s cs s'` relates the initial served set `s`, the returned
images `cs` in order, and the final served set `s'`. -/
inductive PickSeq (images : List String) : Finset String → List String → Finset String → Prop
  | nil (s : Finset String) : PickSeq images s [] s
  | cons {s s₁ s₂ : Finset String} {c : String} {cs : List String} :
      pickStep images s c s₁ → PickSeq images s₁ cs s₂ → PickSeq images s (c :: cs) s₂

/-- `pick_unserved_image(game, channel)` as a relation between the input
game, a possible chosen image, and the updated game. -/
def pick_unserved_image (g : Game) (c : Channel) (choice : String) (g' : Game) : Prop :=
  ∃ served', pickStep c.images (Dict.get g.served c.name ∅) choice served' ∧
    g' = { g with served := Dict.set (Dict.setdefault g.served c.name ∅) c.name served' }

/-- All possible outcomes of `random.sample(channels, 2)`: ordered pairs of
entries at two distinct positions. -/
def sampleTwo (l : List Channel) : List (Channel × Channel) :=
  (List.finRange l.length).flatMap (fun i =>
    (List.finRange l.length).filterMap (fun j =>
      if i = j then none else some (l.get i, l.get j)))

/-- `pick_two_distinct_channels(channels)`: raises for fewer than two
channels, otherwise `random.sample(channels, 2)` — modelled as the list of
its possible outcomes. -/
def pick_two_distinct_channels (channels : List Channel) :
    Except String (List (Channel × Channel)) :=
  if channels.length < 2 then .error "Need at least two channels"
  else .ok (sampleTwo channels)

/-! ### Results computation -/

/-- Round-half-even of `num / den` (for `den > 0`): banker's rounding of the
exact rational value.  On this app's value domain (`0 ≤ wins`,
`1 ≤ total ≤ 100`) it coincides with Python's float `round`, because every
exact tie `1000 * wins / total` there has a power-of-two reduced denominator. -/
def roundHalfEven (num den : Nat) : Nat :=
  let q := num / den
  let r := num % den
  if 2 * r < den then q
  else if den < 2 * r then q + 1
  else if q % 2 = 0 then q else q + 1

/-- `round(100.0 * wins / total_rounds, 1)`, in integer tenths of a percent. -/
def percent_tenths (wins total : Nat) : Nat := roundHalfEven (1000 * wins) total

/-- One row of the results page (`percent` in tenths of a percent). -/
structure ResultEntry where
  channel : String
  wins : Nat
  percent : Nat
deriving DecidableEq

/-- The results sort order: ascending in the key
`(-percent, channel.lower())`. -/
def resLE (x y : ResultEntry) : Prop :=
  y.percent < x.percent ∨
    (x.percent = y.percent ∧ strLE (pyLower x.channel) (pyLower y.channel) = true)

instance : DecidableRel resLE := fun x y => by unfold resLE; infer_instance

/-- The `/results` route: one entry per channel, sorted by `resLE`
(`list.sort` is stable, modelled by insertion sort). -/
def compute_results (g : Game) : List ResultEntry :=
  let total_rounds := max 1 g.rounds_total
  let res := g.channels.map (fun c =>
    { channel := c.name
      wins := Dict.get g.wins c.name 0
      percent := percent_tenths (Dict.get g.wins c.name 0) total_rounds })
  List.insertionSort resLE res

/-! ### Channel building and `setup`

The per-game upload directory is modelled as the set of saved files, each a
list of resolved path components relative to that directory. -/

abbrev FS := List (List String)

/-- `Path.resolve()` on a relative component list: `..` pops, `.` and empty
components vanish (clamped at the root). -/
def resolveComponents (cs : List String) : List String :=
  cs.foldl (fun acc c =>
    if c = ".." then acc.dropLast else if c = "." ∨ c = "" then acc else acc ++ [c]) []

/-- Saving a file records its resolved path once (saving again overwrites). -/
def fsInsert (fs : FS) (p : List String) : FS := if fs.contains p then fs else fs ++ [p]

/-- The destination components below the channel directory for an uploaded
filename: drop the leading folder segment, or use the bare name. -/
def dest_parts (filename : String) : List String :=
  let parts := splitOnChar '/' filename
  if parts.length > 1 then parts.drop 1 else [path_name filename]

/-- One iteration of `setup`'s save loop in `app.py`: skip empty and
non-image filenames, skip destinations that resolve outside the channel
directory ("Avoid directory traversal"), otherwise save.  Returns the file
set and whether this file was saved. -/
def save_file_app (ch_dir : List String) (fs : FS) (filename : String) : FS × Bool :=
  if filename = "" then (fs, false)
  else if ¬ allowed_file filename then (fs, false)
  else
    let dest_file := resolveComponents (ch_dir ++ dest_parts filename)
    if ch_dir.isPrefixOf dest_file then (fsInsert fs dest_file, true) else (fs, false)

/-- The folder-name inference in `setup` and `UploadSource.build_channel`:
the top path segment of the first file's relative path, or the bare stem for
a plain filename. -/
def folder_name_of (relpath : String) : String :=
  if relpath.toList.contains '/' || relpath.toList.contains '\\' then
    (splitOnChar '\\' ((splitOnChar '/' relpath).headD "")).headD ""
  else path_stem relpath

/-- `load_images_for_channel`: walk the saved files under the channel
directory, keep allowed images, return their channel-relative paths sorted. -/
def load_images_for_channel (ch_dir : List String) (fs : FS) : List String :=
  let rels := fs.filterMap (fun p =>
    if (ch_dir.isPrefixOf p ∧ p ≠ ch_dir) ∧ allowed_file (p.getLastD "") then
      some (joinPath (p.drop ch_dir.length))
    else none)
  List.insertionSort (fun a b => strLE a b = true) rels

/-- One `channel<i>` form field of `setup` in `app.py` (given as its list of
uploaded filenames): derive the channel name, save the files, collect the
channel if any image was stored.  The `or safe_channel_name(field)` in the
source is unreachable because `safe_channel_name` never returns `""`. -/
def process_field (fs : FS) (files : List String) : FS × Option Channel :=
  match files with
  | [] => (fs, none)
  | first :: _ =>
    let channel_name := safe_channel_name (folder_name_of first)
    let ch_dir := [channel_name]
    let saved := files.foldl (fun (acc : FS × Bool) f =>
      let step := save_file_app ch_dir acc.1 f
      (step.1, acc.2 || step.2)) (fs, false)
    if saved.2 then
      let images := load_images_for_channel ch_dir saved.1
      if images ≠ [] then (saved.1, some { name := channel_name, images := images })
      else (saved.1, none)
    else (saved.1, none)

/-- The channel-building loop of `setup` over the sorted `channel*` fields,
starting from the freshly cleared upload directory. -/
def setup_channels (fields : List (List String)) : List Channel × FS :=
  fields.foldl (fun (acc : List Channel × FS) files =>
    let step := process_field acc.2 files
    (acc.1 ++ step.2.toList, step.1)) ([], [])

/-- The `/setup` route; `rounds_raw` is the parsed `rounds` form value
(a parse failure yields 15, which clamps to itself). -/
def setup (g : Game) (fields : List (List String)) (rounds_raw : Int) : Game :=
  let rounds_total := (max 5 (min 100 rounds_raw)).toNat
  let channels := (setup_channels fields).1
  if channels.length < 2 then g
  else
    { g with
      channels := channels
      rounds_total := rounds_total
      wins := channels.foldl (fun d c => Dict.set d c.name 0) []
      served := channels.foldl (fun d c => Dict.set d c.name ∅) []
      round_index := 0
      current_round := none }

/-- `UploadSource.build_channel` (`sources/upload.py`): the same save loop,
but with **no** traversal check before `write_bytes`.  Returns the set of
written file paths, relative to the game's upload root, and the channel. -/
def upload_build_channel (idx : Nat) (file_list : List String) : FS × Option Channel :=
  match file_list with
  | [] => ([], none)
  | first :: _ =>
    let clean := sanitize (folder_name_of first)
    let channel_name := if clean = "" then "Upload " ++ toString (idx + 1) else clean
    let ch_dir := [channel_name]
    let saved := file_list.foldl (fun (acc : FS × Bool) f =>
      if f = "" ∨ ¬ allowed_file f then acc
      else (fsInsert acc.1 (resolveComponents (ch_dir ++ dest_parts f)), true)) ([], false)
    if saved.2 then
      let images := load_images_for_channel ch_dir saved.1
      if images ≠ [] then (saved.1, some { name := channel_name, images := images })
      else (saved.1, none)
    else (saved.1, none)

/-- `TestSource.build_channel` (`sources/test.py`). -/
def test_build_channel (idx : Nat) (field_val : Option String) : Option Channel :=
  let j := pyStrip (field_val.getD "")
  let clean := sanitize j
  let name := if clean = "" then "Test " ++ toString (idx + 1) else clean
  some
    { name := name
      images :=
        [ "https://upload.wikimedia.org/wikipedia/commons/e/e8/View_on_Gyakar_%28edited%29.jpg?" ++ j
        , "https://upload.wikimedia.org/wikipedia/commons/1/14/Animal_diversity.png?" ++ j
        , "https://upload.wikimedia.org/wikipedia/commons/2/20/Albertorainforecast2018.png?" ++ j ] }

/-! ### The lifecycle step relation -/

/-- One externally triggered transition of a session, over the routes
`/setup`, `/play` (round generation), `/choose` and `/replay`.  Randomness
is nondeterminism. -/
inductive Step : Game → Game → Prop where
  | ofSetup (g : Game) (fields : List (List String)) (rounds_raw : Int) :
      Step g (setup g fields rounds_raw)
  | ofAdvance (g g₁ g₂ : Game) (i j : Fin g.channels.length) (ia ib : String)
      (hne : i ≠ j)
      (hchs : g.channels ≠ []) (hlt : g.round_index < g.rounds_total)
      (hcur : g.current_round = none)
      (hp1 : pick_unserved_image g (g.channels.get i) ia g₁)
      (hp2 : pick_unserved_image g₁ (g.channels.get j) ib g₂) :
      Step g { g₂ with
               current_round := some (((g.channels.get i).name, ia),
                                      ((g.channels.get j).name, ib)) }
  | ofChoose (g : Game) (choice : Option String) : Step g (choose g choice)
  | ofReplay (g : Game) : Step g (replay g)

/-- Session states reachable from a fresh game. -/
def Reachable (g : Game) : Prop := Relation.ReflTransGen Step ensure_game_init g

/-! ### Example states used by witnesses -/

/-- A session in Playing with an active round between channels A and B. -/
def gRound : Game :=
  { channels := [⟨"A", ["x"]⟩, ⟨"B", ["y"]⟩]
    wins := [("A", 0), ("B", 0)]
    served := [("A", ∅), ("B", ∅)]
    rounds_total := 15
    round_index := 0
    current_round := some (("A", "x"), ("B", "y")) }

/-- The tie scenario of the spec: wins `{A: 3, B: 3}` over ten rounds. -/
def gScenario : Game :=
  { channels := [⟨"A", []⟩, ⟨"B", []⟩]
    wins := [("A", 3), ("B", 3)]
    served := []
    rounds_total := 10
    round_index := 10
    current_round := none }

/-! ### Theorems -/

/-- C9: `startover` resets `rounds_total` to the default 15 and empties
`channels`, `wins` and `served`; `replay`, in contrast, keeps the
configured `rounds_total`. -/
theorem startover_resets_rounds_total (g : Game) :
    (startover g).rounds_total = 15 ∧ (startover g).channels = [] ∧
    (startover g).wins = [] ∧ (startover g).served = [] ∧
    (replay g).rounds_total = g.rounds_total :=
  ⟨rfl, rfl, rfl, rfl, rfl⟩

/-- C10: `TestSource.build_channel` is total: every form input yields a
channel with exactly three image URLs, and an input whose sanitized text is
empty falls back to the positional name `Test {idx+1}`. -/
theorem test_build_channel_total (idx : Nat) (field_val : Option String) :
    (test_build_channel idx field_val).isSome = true ∧
    (∀ c, test_build_channel idx field_val = some c → c.images.length = 3) ∧
    (sanitize (pyStrip (field_val.getD "")) = "" →
      ∀ c, test_build_channel idx field_val = some c →
        c.name = "Test " ++ toString (idx + 1)) := by
  refine ⟨rfl, ?_, ?_⟩
  · intro c h
    simp only [test_build_channel, Option.some.injEq] at h
    rw [← h]
    rfl
  · intro hs c h
    simp only [test_build_channel, hs, if_pos rfl, Option.some.injEq] at h
    rw [← h]
    simp

theorem test_build_channel_total_witness :
    sanitize (pyStrip ((some "   " : Option String).getD "")) = "" ∧
    (∀ c, test_build_channel 7 (some "   ") = some c →
      c.name = "Test " ++ toString (7 + 1)) :=
  ⟨by decide, (test_build_channel_total 7 (some "   ")).2.2 (by decide)⟩

/-- C3 (code bug in `sources/upload.py`): `UploadSource.build_channel`
writes the uploaded file `Cats/../../evil.png` to `evil.png` at the upload
root, outside the channel directory `Cats`, because it lacks the traversal
check; the save loop in `app.py`'s `setup` rejects the very same file. -/
theorem upload_build_channel_traversal_escape :
    (upload_build_channel 0 ["Cats/../../evil.png"]).1 = [["evil.png"]] ∧
    (["Cats"].isPrefixOf ["evil.png"]) = false ∧
    save_file_app ["Cats"] [] "Cats/../../evil.png" = ([], false) := by
  exact ⟨by decide, by decide, by decide⟩

/-- C6: `pick_two_distinct_channels` errors on fewer than two channels;
on two or more it can only return pairs taken at two distinct positions of
the channel list (hence two distinct channels whenever the channel values
are distinct). -/
theorem pick_two_distinct_channels_spec (channels : List Channel) :
    (channels.length < 2 →
      pick_two_distinct_channels channels = .error "Need at least two channels") ∧
    (2 ≤ channels.length →
      ∃ outcomes, pick_two_distinct_channels channels = .ok outcomes ∧ outcomes ≠ [] ∧
        ∀ p ∈ outcomes, ∃ i j : Fin channels.length, i ≠ j ∧
          p.1 = channels.get i ∧ p.2 = channels.get j ∧
          (channels.Nodup → p.1 ≠ p.2)) := by
  constructor
  · intro h
    simp [pick_two_distinct_channels, if_pos h]
  · intro h2
    refine ⟨sampleTwo channels, ?_, ?_, ?_⟩
    · simp [pick_two_distinct_channels, Nat.not_lt.mpr h2]
    · have h0 : (0 : Nat) < channels.length := by omega
      have h1 : (1 : Nat) < channels.length := by omega
      have hmem : (channels.get ⟨0, h0⟩, channels.get ⟨1, h1⟩) ∈ sampleTwo channels := by
        simp only [sampleTwo, List.mem_flatMap, List.mem_filterMap]
        refine ⟨⟨0, h0⟩, List.mem_finRange _, ⟨1, h1⟩, List.mem_finRange _, ?_⟩
        rw [if_neg (by simp [Fin.ext_iff])]
      exact List.ne_nil_of_mem hmem
    · intro p hp
      simp only [sampleTwo, List.mem_flatMap, List.mem_filterMap] at hp
      obtain ⟨i, -, j, -, hij⟩ := hp
      by_cases hne : i = j
      · rw [if_pos hne] at hij; cases hij
      · rw [if_neg hne] at hij
        have hp' := Option.some.inj hij
        subst hp'
        refine ⟨i, j, hne, rfl, rfl, ?_⟩
        intro hnd heq
        exact hne ((List.Nodup.get_inj_iff hnd).mp heq)

theorem pick_two_distinct_channels_spec_witness :
    ([⟨"A", []⟩] : List Channel).length < 2 ∧
    pick_two_distinct_channels [⟨"A", []⟩] = .error "Need at least two channels" :=
  ⟨by decide, (pick_two_distinct_channels_spec [⟨"A", []⟩]).1 (by decide)⟩

/-- C5: `choose` is a no-op exactly when no round is active or the side is
neither `left` nor `right`; otherwise it increments the picked channel's
wins and the round index and clears the current round, leaving `served`,
`channels` and `rounds_total` untouched in every case. -/
theorem choose_characterization (g : Game) (choice : Option String) :
    (choose g choice = g ↔
      g.current_round = none ∨ (choice ≠ some "left" ∧ choice ≠ some "right")) ∧
    (choose g choice).served = g.served ∧
    (choose g choice).channels = g.channels ∧
    (choose g choice).rounds_total = g.rounds_total ∧
    (∀ a ia b ib, g.current_round = some ((a, ia), (b, ib)) →
      choose g (some "left") =
        { g with wins := Dict.set g.wins a (Dict.get g.wins a 0 + 1)
                 round_index := g.round_index + 1
                 current_round := none } ∧
      choose g (some "right") =
        { g with wins := Dict.set g.wins b (Dict.get g.wins b 0 + 1)
                 round_index := g.round_index + 1
                 current_round := none }) := by
  rcases hr : g.current_round with _ | ⟨⟨a₀, ia₀⟩, b₀, ib₀⟩
  · refine ⟨⟨fun _ => Or.inl rfl, fun _ => ?_⟩, ?_, ?_, ?_, ?_⟩
    · simp [choose, hr]
    · simp [choose, hr]
    · simp [choose, hr]
    · simp [choose, hr]
    · intro a ia b ib hcur
      exact Option.noConfusion hcur
  · have hsucc : ∀ picked,
        choose g (some picked) = g → picked ≠ "left" ∧ picked ≠ "right" := by
      intro picked hEq
      constructor
      · intro hl
        subst hl
        have := congrArg Game.round_index hEq
        simp [choose, hr] at this
      · intro hrt
        subst hrt
        have := congrArg Game.round_index hEq
        simp [choose, hr] at this
    refine ⟨⟨?_, ?_⟩, ?_, ?_, ?_, ?_⟩
    · intro hEq
      right
      rcases choice with _ | s
      · exact ⟨by simp, by simp⟩
      · have := hsucc s hEq
        exact ⟨by simpa using this.1, by simpa using this.2⟩
    · intro hcase
      rcases hcase with hnone | ⟨hl, hrt⟩
      · exact Option.noConfusion hnone
      · simp [choose, hr, hl, hrt]
    · rcases choice with _ | s
      · simp [choose, hr]
      · by_cases hl : s = "left"
        · simp [choose, hr, hl]
        · by_cases hrt : s = "right"
          · simp [choose, hr, hrt]
          · simp [choose, hr, hl, hrt]
    · rcases choice with _ | s
      · simp [choose, hr]
      · by_cases hl : s = "left"
        · simp [choose, hr, hl]
        · by_cases hrt : s = "right"
          · simp [choose, hr, hrt]
          · simp [choose, hr, hl, hrt]
    · rcases choice with _ | s
      · simp [choose, hr]
      · by_cases hl : s = "left"
        · simp [choose, hr, hl]
        · by_cases hrt : s = "right"
          · simp [choose, hr, hrt]
          · simp [choose, hr, hl, hrt]
    · intro a ia b ib hcur
      cases hcur
      constructor
      · simp [choose, hr]
      · simp [choose, hr]

theorem choose_characterization_witness :
    gRound.current_round = some (("A", "x"), ("B", "y")) ∧
    (choose gRound (some "left") =
      { gRound with wins := Dict.set gRound.wins "A" (Dict.get gRound.wins "A" 0 + 1)
                    round_index := gRound.round_index + 1
                    current_round := none } ∧
     choose gRound (some "right") =
      { gRound with wins := Dict.set gRound.wins "B" (Dict.get gRound.wins "B" 0 + 1)
                    round_index := gRound.round_index + 1
                    current_round := none }) :=
  ⟨rfl, (choose_characterization gRound none).2.2.2.2 "A" "x" "B" "y" rfl⟩

/-! ### The results sort order is a total preorder -/

theorem charsLE_total (a b : List Char) : charsLE a b = true ∨ charsLE b a = true := by
  induction a generalizing b with
  | nil => exact Or.inl rfl
  | cons x xs ih =>
    cases b with
    | nil => exact Or.inr rfl
    | cons y ys =>
      rcases lt_trichotomy x y with h | h | h
      · left; simp [charsLE, h]
      · subst h
        rcases ih ys with h' | h'
        · left; simp [charsLE, lt_irrefl, h']
        · right; simp [charsLE, lt_irrefl, h']
      · right; simp [charsLE, h]

theorem charsLE_trans {a b c : List Char}
    (h₁ : charsLE a b = true) (h₂ : charsLE b c = true) : charsLE a c = true := by
  induction a generalizing b c with
  | nil => rfl
  | cons x xs ih =>
    cases b with
    | nil => simp [charsLE] at h₁
    | cons y ys =>
      cases c with
      | nil => simp [charsLE] at h₂
      | cons z zs =>
        simp only [charsLE] at h₁ h₂ ⊢
        rcases lt_trichotomy x y with hxy | hxy | hxy
        · rcases lt_trichotomy y z with hyz | hyz | hyz
          · simp [lt_trans hxy hyz]
          · subst hyz; simp [hxy]
          · rw [if_neg (asymm hyz), if_pos hyz] at h₂; cases h₂
        · subst hxy
          rcases lt_trichotomy x z with hyz | hyz | hyz
          · simp [hyz]
          · subst hyz
            rw [if_neg (lt_irrefl x), if_neg (lt_irrefl x)] at h₁ h₂
            simp [lt_irrefl, ih h₁ h₂]
          · rw [if_neg (asymm hyz), if_pos hyz] at h₂; cases h₂
        · rw [if_neg (asymm hxy), if_pos hxy] at h₁; cases h₁

theorem resLE_total (x y : ResultEntry) : resLE x y ∨ resLE y x := by
  rcases lt_trichotomy x.percent y.percent with h | h | h
  · exact Or.inr (Or.inl h)
  · rcases charsLE_total (pyLower x.channel).toList (pyLower y.channel).toList with h' | h'
    · exact Or.inl (Or.inr ⟨h, h'⟩)
    · exact Or.inr (Or.inr ⟨h.symm, h'⟩)
  · exact Or.inl (Or.inl h)

theorem resLE_trans (x y z : ResultEntry) (h₁ : resLE x y) (h₂ : resLE y z) : resLE x z := by
  rcases h₁ with h₁ | ⟨he₁, hs₁⟩
  · rcases h₂ with h₂ | ⟨he₂, hs₂⟩
    · exact Or.inl (lt_trans h₂ h₁)
    · exact Or.inl (he₂ ▸ h₁)
  · rcases h₂ with h₂ | ⟨he₂, hs₂⟩
    · exact Or.inl (he₁ ▸ h₂)
    · exact Or.inr ⟨he₁.trans he₂, charsLE_trans hs₁ hs₂⟩

/-- C4: `compute_results` produces one entry per channel with the rounded
win percentage (in tenths of a percent), sorted by percent descending with
ties broken by the case-insensitive channel name ascending; in the tie
scenario `{A: 3, B: 3}` over ten rounds both rows show 30.0% and A
precedes B. -/
theorem compute_results_spec (g : Game) :
    ((compute_results g).map ResultEntry.channel).Perm (g.channels.map Channel.name) ∧
    (∀ e ∈ compute_results g,
      e.wins = Dict.get g.wins e.channel 0 ∧
      e.percent = percent_tenths (Dict.get g.wins e.channel 0) (max 1 g.rounds_total)) ∧
    (compute_results g).Pairwise resLE ∧
    compute_results gScenario =
      [⟨"A", 3, 300⟩, ⟨"B", 3, 300⟩] := by
  refine ⟨?_, ?_, ?_, by decide⟩
  · have hperm := List.perm_insertionSort resLE (g.channels.map (fun c =>
      ({ channel := c.name
         wins := Dict.get g.wins c.name 0
         percent := percent_tenths (Dict.get g.wins c.name 0) (max 1 g.rounds_total) }
        : ResultEntry)))
    refine (hperm.map ResultEntry.channel).trans ?_
    rw [List.map_map]
    exact List.Perm.refl _
  · intro e he
    rw [compute_results, List.mem_insertionSort] at he
    obtain ⟨c, -, hc⟩ := List.mem_map.mp he
    rw [← hc]
    exact ⟨rfl, rfl⟩
  · exact @List.sorted_insertionSort ResultEntry resLE _ ⟨resLE_total⟩ ⟨resLE_trans⟩ _

theorem compute_results_spec_witness :
    (⟨"A", 3, 300⟩ : ResultEntry) ∈ compute_results gScenario ∧
    ((⟨"A", 3, 300⟩ : ResultEntry).wins =
        Dict.get gScenario.wins (⟨"A", 3, 300⟩ : ResultEntry).channel 0 ∧
     (⟨"A", 3, 300⟩ : ResultEntry).percent =
        percent_tenths (Dict.get gScenario.wins (⟨"A", 3, 300⟩ : ResultEntry).channel 0)
          (max 1 gScenario.rounds_total)) :=
  ⟨by decide, (compute_results_spec gScenario).2.1 ⟨"A", 3, 300⟩ (by decide)⟩

/-! ### The served cache cycles through every image -/

/-- While fewer images have been returned than the channel holds, no cache
clear can have happened: the picks so far are distinct, all from the
channel, all new, and the served set accumulates exactly the picks. -/
theorem pickSeq_invariant (images : List String) {s : Finset String} {cs : List String}
    {s' : Finset String} (h : PickSeq images s cs s') :
    s ⊆ images.toFinset → s.card + cs.length ≤ images.toFinset.card →
    cs.Nodup ∧ (∀ c ∈ cs, c ∈ images) ∧ (∀ c ∈ cs, c ∉ s) ∧ s' = s ∪ cs.toFinset := by
  induction h with
  | nil s => intro _ _; simp
  | @cons s s₁ s₂ c cs hstep hrest ih =>
    intro hsub hcard
    have hne : images.toFinset \ s ≠ ∅ := by
      intro h0
      rw [Finset.sdiff_eq_empty_iff_subset] at h0
      have hse : s = images.toFinset := Finset.Subset.antisymm hsub h0
      rw [hse] at hcard
      simp only [List.length_cons] at hcard
      omega
    simp only [pickStep] at hstep
    rw [if_neg hne, if_neg hne] at hstep
    obtain ⟨hc, hs₁⟩ := hstep
    obtain ⟨hcav, hcns⟩ := Finset.mem_sdiff.mp hc
    subst hs₁
    have hsub₁ : insert c s ⊆ images.toFinset := Finset.insert_subset hcav hsub
    have hcard₁ : (insert c s).card + cs.length ≤ images.toFinset.card := by
      rw [Finset.card_insert_of_not_mem hcns]
      simp only [List.length_cons] at hcard
      omega
    obtain ⟨hnd, hmem, hnotin, hs₂⟩ := ih hsub₁ hcard₁
    refine ⟨?_, ?_, ?_, ?_⟩
    · rw [List.nodup_cons]
      exact ⟨fun hccs => hnotin c hccs (Finset.mem_insert_self c s), hnd⟩
    · intro x hx
      rcases List.mem_cons.mp hx with rfl | hx'
      · exact List.mem_toFinset.mp hcav
      · exact hmem x hx'
    · intro x hx
      rcases List.mem_cons.mp hx with rfl | hx'
      · exact hcns
      · exact fun hxs => hnotin x hx' (Finset.mem_insert_of_mem hxs)
    · rw [hs₂, List.toFinset_cons, Finset.insert_union, Finset.union_insert]

/-- C2: starting from an empty served cache, `len(images)` consecutive
`pick_unserved_image` calls on one (duplicate-free, non-empty) channel
return a permutation of its image list and leave the cache full, and the
next call clears the cache before choosing (its resulting served set is the
singleton of its choice). -/
theorem pick_unserved_image_permutation (images : List String) (hne : images ≠ [])
    (hnd : images.Nodup) (cs : List String) (s' : Finset String)
    (hseq : PickSeq images ∅ cs s') (hlen : cs.length = images.length) :
    cs.Perm images ∧ s' = images.toFinset ∧ images.toFinset \ s' = ∅ ∧
    (∀ c s'', pickStep images s' c s'' → c ∈ images ∧ s'' = {c}) := by
  have hcardeq : images.toFinset.card = images.length := List.toFinset_card_of_nodup hnd
  obtain ⟨hnodup, hmem, -, hs'⟩ :=
    pickSeq_invariant images hseq (Finset.empty_subset _)
      (by rw [Finset.card_empty, hcardeq, hlen]; omega)
  rw [Finset.empty_union] at hs'
  have hperm : cs.Perm images := by
    have hsubperm := List.subperm_of_subset hnodup (fun x hx => hmem x hx)
    exact hsubperm.perm_of_length_le (by omega)
  have hfin : s' = images.toFinset := by
    rw [hs', List.toFinset_eq_of_perm _ _ hperm]
  refine ⟨hperm, hfin, by rw [hfin, Finset.sdiff_self], ?_⟩
  intro c s'' hstep
  simp only [pickStep] at hstep
  rw [hfin, Finset.sdiff_self, if_pos rfl, Finset.sdiff_empty] at hstep
  have havne : images.toFinset ≠ ∅ := by
    intro h0
    exact hne ((List.toFinset_eq_empty_iff _).mp h0)
  rw [if_neg havne] at hstep
  exact ⟨List.mem_toFinset.mp hstep.1, hstep.2⟩

theorem pick_unserved_image_permutation_witness :
    (["b", "a"] : List String).Perm ["a", "b"] ∧
    (insert "a" {"b"} : Finset String) = (["a", "b"] : List String).toFinset :=
  have h := pick_unserved_image_permutation ["a", "b"] (by decide) (by decide)
    ["b", "a"] (insert "a" {"b"})
    (@PickSeq.cons ["a", "b"] ∅ {"b"} (insert "a" {"b"}) "b" ["a"] (by decide)
      (@PickSeq.cons ["a", "b"] {"b"} (insert "a" {"b"}) (insert "a" {"b"}) "a" []
        (by decide) (PickSeq.nil _)))
    (by decide)
  ⟨h.1, h.2.1⟩

/-! ### Dict lemmas -/

theorem setdefault_of_isSome {β : Type} (d : Dict β) (k : String) (v : β)
    (h : (Dict.get? d k).isSome = true) : Dict.setdefault d k v = d := by
  unfold Dict.setdefault
  rw [if_pos h]

theorem foldl_setdefault_id (cs : List Channel) (d : Dict (Finset String))
    (h : ∀ c ∈ cs, (Dict.get? d c.name).isSome = true) :
    cs.foldl (fun d c => Dict.setdefault d c.name ∅) d = d := by
  induction cs with
  | nil => rfl
  | cons c rest ih =>
    rw [List.foldl_cons, setdefault_of_isSome d c.name ∅ (h c (List.mem_cons_self c rest))]
    exact ih (fun c' hc' => h c' (List.mem_cons_of_mem _ hc'))

theorem set_zero_values (d : Dict Nat) (k : String)
    (h : ∀ kv ∈ d, kv.2 = 0) : ∀ kv ∈ Dict.set d k 0, kv.2 = 0 := by
  induction d with
  | nil =>
    intro kv hkv
    simp only [Dict.set, List.mem_singleton] at hkv
    rw [hkv]
  | cons hd tl ih =>
    obtain ⟨k', v'⟩ := hd
    intro kv hkv
    by_cases hk : k' = k
    · simp only [Dict.set, if_pos hk] at hkv
      rcases List.mem_cons.mp hkv with h₁ | h₁
      · rw [h₁]
      · exact h kv (List.mem_cons_of_mem _ h₁)
    · simp only [Dict.set, if_neg hk] at hkv
      rcases List.mem_cons.mp hkv with h₁ | h₁
      · exact h kv (h₁ ▸ List.mem_cons_self _ _)
      · exact ih (fun kv' hkv' => h kv' (List.mem_cons_of_mem _ hkv')) kv h₁

theorem foldl_set_zero_values (cs : List Channel) (d : Dict Nat)
    (h : ∀ kv ∈ d, kv.2 = 0) :
    ∀ kv ∈ cs.foldl (fun d c => Dict.set d c.name 0) d, kv.2 = 0 := by
  induction cs generalizing d with
  | nil => exact h
  | cons c rest ih => exact ih _ (set_zero_values d c.name h)

theorem sum_values_eq_zero (d : Dict Nat) (h : ∀ kv ∈ d, kv.2 = 0) :
    (Dict.values d).sum = 0 :=
  List.sum_eq_zero (fun x hx => by
    obtain ⟨kv, hkv, hxv⟩ := List.mem_map.mp hx
    rw [← hxv]
    exact h kv hkv)

theorem mem_keys_set {β : Type} (d : Dict β) (k a : String) (v : β) :
    a ∈ Dict.keys (Dict.set d k v) ↔ a ∈ Dict.keys d ∨ a = k := by
  induction d with
  | nil => simp [Dict.set, Dict.keys]
  | cons hd tl ih =>
    obtain ⟨k', v'⟩ := hd
    simp only [Dict.set]
    by_cases hk : k' = k
    · rw [if_pos hk]
      subst hk
      simp only [Dict.keys, List.map_cons, List.mem_cons]
      tauto
    · rw [if_neg hk]
      simp only [Dict.keys, List.map_cons, List.mem_cons] at ih ⊢
      rw [ih]
      tauto

theorem mem_keys_foldl_set_zero (cs : List Channel) (d : Dict Nat) (a : String) :
    a ∈ Dict.keys (cs.foldl (fun d c => Dict.set d c.name 0) d) ↔
      a ∈ Dict.keys d ∨ a ∈ cs.map Channel.name := by
  induction cs generalizing d with
  | nil => simp
  | cons c rest ih =>
    rw [List.foldl_cons, ih, mem_keys_set]
    simp only [List.map_cons, List.mem_cons]
    tauto

/-! ### Replay and setup -/

/-- C7: `replay` zeroes the wins (their key set being the channel names),
resets the round index, clears the current round, and leaves `served` —
as well as `channels` and `rounds_total` — exactly as before, for every
session in which each channel name is a key of `served` (as the data model
guarantees). -/
theorem replay_preserves_served (g : Game)
    (h : ∀ c ∈ g.channels, (Dict.get? g.served c.name).isSome = true) :
    (replay g).round_index = 0 ∧ (replay g).current_round = none ∧
    (∀ kv ∈ (replay g).wins, kv.2 = 0) ∧
    (∀ a, a ∈ Dict.keys (replay g).wins ↔ a ∈ g.channels.map Channel.name) ∧
    (replay g).served = g.served ∧
    (replay g).channels = g.channels ∧ (replay g).rounds_total = g.rounds_total := by
  refine ⟨rfl, rfl, ?_, ?_, ?_, rfl, rfl⟩
  · exact foldl_set_zero_values g.channels [] (by simp)
  · intro a
    have hk := mem_keys_foldl_set_zero g.channels [] a
    simpa [Dict.keys] using hk
  · show g.channels.foldl (fun d c => Dict.setdefault d c.name ∅) g.served = g.served
    exact foldl_setdefault_id g.channels g.served h

theorem replay_preserves_served_witness :
    (∀ c ∈ gRound.channels, (Dict.get? gRound.served c.name).isSome = true) ∧
    (replay gRound).served = gRound.served :=
  ⟨by decide, (replay_preserves_served gRound (by decide)).2.2.2.2.1⟩

/-- C8 (amended): after a successful `setup` the key set of `wins` equals
the set of channel names — but the channel names themselves need not be
pairwise distinct. -/
theorem setup_wins_keys (g : Game) (fields : List (List String)) (rounds_raw : Int)
    (h2 : ¬ (setup_channels fields).1.length < 2) :
    ∀ a, a ∈ Dict.keys (setup g fields rounds_raw).wins ↔
      a ∈ (setup g fields rounds_raw).channels.map Channel.name := by
  intro a
  simp only [setup]
  rw [if_neg h2]
  have hk := mem_keys_foldl_set_zero (setup_channels fields).1 [] a
  simpa [Dict.keys] using hk

theorem setup_wins_keys_witness :
    ¬ (setup_channels [["Cats/a.png"], ["Dogs/b.png"]]).1.length < 2 ∧
    (∀ a, a ∈ Dict.keys (setup ensure_game_init [["Cats/a.png"], ["Dogs/b.png"]] 15).wins ↔
      a ∈ (setup ensure_game_init [["Cats/a.png"], ["Dogs/b.png"]] 15).channels.map
            Channel.name) :=
  ⟨by decide, setup_wins_keys ensure_game_init [["Cats/a.png"], ["Dogs/b.png"]] 15 (by decide)⟩

/-- C8 counterexample: two upload slots whose folders share the sanitized
name `Cats` make `setup` succeed with two channels of the same name in one
session, so channel names are not always pairwise distinct. -/
theorem setup_duplicate_channel_names :
    ((setup ensure_game_init [["Cats/a.png"], ["Cats/b.png"]] 15).channels.map
        Channel.name) = ["Cats", "Cats"] ∧
    ¬ ((setup ensure_game_init [["Cats/a.png"], ["Cats/b.png"]] 15).channels.map
        Channel.name).Nodup := by
  exact ⟨by decide, by decide⟩

/-! ### The score invariant -/

/-- `wins[picked] = wins.get(picked, 0) + 1` grows the sum of the win
counts by exactly one, whether or not the key was present. -/
theorem sum_values_set_get_succ (d : Dict Nat) (k : String) :
    (Dict.values (Dict.set d k (Dict.get d k 0 + 1))).sum = (Dict.values d).sum + 1 := by
  induction d with
  | nil => rfl
  | cons hd tl ih =>
    obtain ⟨k', v'⟩ := hd
    by_cases hk : k' = k
    · simp only [Dict.get, Dict.get?, if_pos hk, Option.getD_some, Dict.set, Dict.values,
        List.map_cons, List.sum_cons]
      omega
    · simp only [Dict.get, Dict.get?, if_neg hk, Dict.set, Dict.values,
        List.map_cons, List.sum_cons] at ih ⊢
      omega

/-- `pick_unserved_image` only touches `served`. -/
theorem pick_unserved_image_frame (g : Game) (c : Channel) (choice : String) (g' : Game)
    (h : pick_unserved_image g c choice g') :
    g'.wins = g.wins ∧ g'.round_index = g.round_index ∧
    g'.channels = g.channels ∧ g'.rounds_total = g.rounds_total := by
  obtain ⟨served', -, rfl⟩ := h
  exact ⟨rfl, rfl, rfl, rfl⟩

/-- `choose` preserves the score invariant. -/
theorem choose_preserves_invariant (g : Game) (choice : Option String)
    (h : sum_wins g = g.round_index) :
    sum_wins (choose g choice) = (choose g choice).round_index := by
  rcases hr : g.current_round with _ | ⟨⟨a, ia⟩, b, ib⟩
  · simpa [choose, hr] using h
  · by_cases hl : choice = some "left"
    · simp only [choose, hr, hl, if_pos]
      show (Dict.values (Dict.set g.wins a (Dict.get g.wins a 0 + 1))).sum = g.round_index + 1
      rw [sum_values_set_get_succ]
      exact congrArg (· + 1) h
    · by_cases hrt : choice = some "right"
      · simp only [choose, hr, hrt, hl, if_neg, if_pos]
        show (Dict.values (Dict.set g.wins b (Dict.get g.wins b 0 + 1))).sum = g.round_index + 1
        rw [sum_values_set_get_succ]
        exact congrArg (· + 1) h
      · simpa [choose, hr, hl, hrt] using h

/-- C1: in every reachable session state — in particular in every Playing
or Results state — the win counts sum to the round index. -/
theorem sum_wins_eq_round_index (g : Game) (h : Reachable g) :
    sum_wins g = g.round_index := by
  unfold Reachable at h
  induction h with
  | refl => rfl
  | tail hsteps hstep ih =>
    rename_i b c
    cases hstep with
    | ofSetup fields rounds_raw =>
      by_cases h2 : (setup_channels fields).1.length < 2
      · simpa [setup, if_pos h2] using ih
      · simp only [setup, if_neg h2]
        show (Dict.values ((setup_channels fields).1.foldl
          (fun d c => Dict.set d c.name 0) [])).sum = 0
        exact sum_values_eq_zero _ (foldl_set_zero_values _ [] (by simp))
    | ofAdvance g₁ g₂ i j ia ib hne hchs hlt hcur hp1 hp2 =>
      obtain ⟨hw1, hr1, -, -⟩ := pick_unserved_image_frame _ _ _ _ hp1
      obtain ⟨hw2, hr2, -, -⟩ := pick_unserved_image_frame _ _ _ _ hp2
      show (Dict.values g₂.wins).sum = g₂.round_index
      rw [hw2, hw1, hr2, hr1]
      exact ih
    | ofChoose choice => exact choose_preserves_invariant b choice ih
    | ofReplay =>
      show (Dict.values ((replay b).wins)).sum = 0
      exact sum_values_eq_zero _ (foldl_set_zero_values _ [] (by simp))

theorem sum_wins_eq_round_index_witness :
    sum_wins (setup ensure_game_init [["Cats/a.png"], ["Dogs/b.png"]] 15) =
      (setup ensure_game_init [["Cats/a.png"], ["Dogs/b.png"]] 15).round_index :=
  sum_wins_eq_round_index _
    (Relation.ReflTransGen.single
      (Step.ofSetup ensure_game_init [["Cats/a.png"], ["Dogs/b.png"]] 15))

end ThisOrThat
